import Mathlib

/-!
Verification of the textpp text preprocessor (src/src/main.rs) against its
natural-language specification.  The Rust code is shallowly embedded:

* `Defs` models the `Defs` struct; its two `HashMap`s are modelled as
  functions `String → Option _` with pointwise update (the semantics of
  `HashMap.insert` / `HashMap.remove`).
* The byte-oriented substitution scanners (`replace_dollar_vars`,
  `replace_hash_vars`) are embedded over `List Char` with an explicit fuel
  argument (fuel is always called with the input length, which is proven
  sufficient next to the definitions); the two Rust functions differ only in
  the substitution condition, so they share the parameterised core `scanCore`.
* The expression tokenizer and the recursive-descent parser/evaluator are
  embedded with fuel as well; `eval_expr` supplies fuel that is ample for the
  token count, exactly mirroring the terminating Rust recursion.
* `process_file` is embedded with a recursion-depth fuel (the Rust code has
  no include-cycle guard and would overflow the stack on a cycle; every
  theorem below either takes fuel as a parameter or uses a concrete depth).
  The file system is abstracted as `FS : String → Option String`
  (`fs path = none` models an unreadable file, as `fs::read_to_string` `Err`).
* Rust `char::is_whitespace` is modelled by `Char.isWhitespace`
  (identical on ASCII input), `str::to_ascii_uppercase` by mapping
  `Char.toUpper` (identical: both upcase only ASCII letters).
-/

/-- File system accessor: maps a path to its content, `none` when the file
cannot be read (embeds `fs::read_to_string` returning `Err`). -/
def FS : Type := String → Option String

/-- Definition store from `struct Defs`: the two `HashMap`s are modelled as
functions returning `Option`. -/
structure Defs where
  values : String → Option String
  defined : String → Option Bool

/-- Embeds `Defs::new`. -/
def Defs.new : Defs :=
  { values := fun _ => none, defined := fun _ => none }

/-- Embeds `Defs::set_defined`: `Some v` inserts into both maps, `None`
removes the value and inserts `false` into `defined`. -/
def Defs.set_defined (d : Defs) (key : String) (value : Option String) : Defs :=
  match value with
  | some v =>
    { values := fun k => if k = key then some v else d.values k
      defined := fun k => if k = key then some true else d.defined k }
  | none =>
    { values := fun k => if k = key then none else d.values k
      defined := fun k => if k = key then some false else d.defined k }

/-- Embeds `Defs::is_defined`. -/
def Defs.is_defined (d : Defs) (key : String) : Bool :=
  (d.defined key).getD false

/-- Embeds `Defs::get_value`. -/
def Defs.get_value (d : Defs) (key : String) : String :=
  if d.is_defined key then (d.values key).getD "TRUE" else ""

/-- Embeds `is_ident`: first char ASCII alphabetic or underscore, rest ASCII
alphanumeric or underscore (`Char.isAlpha`/`Char.isAlphanum` are ASCII-only,
matching `is_ascii_alphabetic`/`is_ascii_alphanumeric`). -/
def is_ident (s : String) : Bool :=
  match s.data with
  | [] => false
  | c :: rest =>
    (c.isAlpha || c = '_') && rest.all (fun ch => ch.isAlphanum || ch = '_')

/-- ASCII uppercasing, embedding `str::to_ascii_uppercase` (`Char.toUpper`
upcases exactly the ASCII lowercase letters). -/
def toUpperAscii (s : String) : String :=
  String.mk (s.data.map Char.toUpper)

/-- Embeds `truthy`. -/
def truthy (value : String) : Bool :=
  if value = "" then false
  else
    let upper := toUpperAscii value
    !(upper == "0" || upper == "F" || upper == "FALSE" || upper == "NO")

/-- Embeds `find_double_dollar_end` / `find_double_hash_end`, suffix-based:
splits at the first adjacent `delim`,`delim` pair, returning the part before
the pair and the part after it, or `none` when no pair exists. -/
def findClose (delim : Char) : List Char → Option (List Char × List Char)
  | c1 :: c2 :: rest =>
    if c1 = delim && c2 = delim then some ([], rest)
    else
      match findClose delim (c2 :: rest) with
      | some (pre, post) => some (c1 :: pre, post)
      | none => none
  | _ => none

/-- Shared core of `replace_dollar_vars` and `replace_hash_vars` (the two
Rust functions are identical except for the substitution condition, passed
here as `substF`).  The `fuel` argument makes the recursion structural; every
caller passes the input length, which is sufficient (`scanCore_eq_specScan`
below discharges it).  The Rust loop runs while `i + 1 < len` and pushes the
final byte afterwards: the `[c]` case. -/
def scanCore (delim : Char) (substF : String → String) : Nat → List Char → List Char
  | 0, l => l
  | _, [] => []
  | _, [c] => [c]
  | fuel + 1, c1 :: c2 :: rest =>
    if c1 = delim && c2 = delim then
      match findClose delim rest with
      | some (name, after) =>
        (substF (String.mk name)).data ++ scanCore delim substF fuel after
      | none => c1 :: scanCore delim substF fuel (c2 :: rest)
    else c1 :: scanCore delim substF fuel (c2 :: rest)

/-- Substitution rule of `replace_dollar_vars` for one enclosed span: a
valid identifier is replaced by its resolved value, anything else by
nothing (span deletion). -/
def dollarSubst (defs : Defs) (name : String) : String :=
  if is_ident name then defs.get_value name else ""

/-- Substitution rule of `replace_hash_vars` for one enclosed span: only a
valid identifier that `is_defined` is replaced by its resolved value,
anything else by nothing (span deletion). -/
def hashSubst (defs : Defs) (name : String) : String :=
  if is_ident name && defs.is_defined name then defs.get_value name else ""

/-- Embeds `replace_dollar_vars`: content-level `$$name$$` substitution. -/
def replace_dollar_vars (input : String) (defs : Defs) : String :=
  String.mk (scanCore '$' (dollarSubst defs) input.data.length input.data)

/-- Embeds `replace_hash_vars`: include-path `##name##` substitution. -/
def replace_hash_vars (input : String) (defs : Defs) : String :=
  String.mk (scanCore '#' (hashSubst defs) input.data.length input.data)

/-- Whitespace trim on both ends of a char list (embeds `str::trim`). -/
def trimBoth (l : List Char) : List Char :=
  ((l.dropWhile Char.isWhitespace).reverse.dropWhile Char.isWhitespace).reverse

/-- Embeds `parse_include_path`: drop the `include` keyword, trim, strip all
double quotes, apply hash substitution, reject empty results. -/
def parse_include_path (t : String) (defs : Defs) : Option String :=
  let after := trimBoth (t.data.drop 7)
  if after.isEmpty then none
  else
    let cleaned := after.filter (fun c => c != '"')
    let replaced := replace_hash_vars (String.mk cleaned) defs
    if replaced = "" then none else some replaced

/-- Model of Rust `Path::parent().unwrap_or(Path::new("."))` over
slash-separated path strings (for paths without a trailing slash): the text
before the final slash; `""` for a single component, `"/"` when the only
slash is leading, `"."` for the empty path. -/
def parentDir (p : String) : String :=
  match p.data.reverse.dropWhile (fun c => c ≠ '/') with
  | [] => if p.data.isEmpty then "." else ""
  | ['/'] => "/"
  | '/' :: rest => String.mk rest.reverse
  | l => String.mk l.reverse

/-- Model of Rust `Path::join`: an absolute right side replaces the base,
otherwise the two are joined with a separator. -/
def pathJoin (base rel : String) : String :=
  if rel.data.head? = some '/' then rel
  else if base = "" then rel
  else if base.data.getLast? = some '/' then base ++ rel
  else base ++ "/" ++ rel

/-- One line of `content.lines()`: strips the `'\r'` of a `"\r\n"` ending
(the accumulator holds the line's chars in reverse). -/
def lineOfAcc (acc : List Char) : String :=
  match acc with
  | '\r' :: acc2 => String.mk acc2.reverse
  | _ => String.mk acc.reverse

/-- Worker for `linesOf`. -/
def linesAux : List Char → List Char → List String
  | [], [] => []
  | [], acc => [String.mk acc.reverse]
  | '\n' :: rest, acc => lineOfAcc acc :: linesAux rest []
  | c :: rest, acc => linesAux rest (c :: acc)

/-- Embeds Rust `str::lines`: split at `'\n'`, strip a preceding `'\r'`,
drop an optional final line terminator. -/
def linesOf (s : String) : List String :=
  linesAux s.data []

/-- Embeds `enum Token`. -/
inductive Token where
  | ident (s : String)
  | str (s : String)
  | num (s : String)
  | and
  | or
  | eq
  | ne
  | not
  | lparen
  | rparen
deriving Repr, DecidableEq

/-- Embeds the string-literal loop of `tokenize`: chars after the opening
quote; a backslash drops itself and keeps the following char; reaching the
end without a closing quote is an error (the source message also quotes the
offending text in apostrophes, elided here). -/
def scanString : List Char → Except String (List Char × List Char)
  | [] => Except.error "invalid expression: unterminated string"
  | '"' :: rest => Except.ok ([], rest)
  | '\\' :: next :: rest =>
    match scanString rest with
    | Except.ok (s, r) => Except.ok (next :: s, r)
    | Except.error e => Except.error e
  | c :: rest =>
    match scanString rest with
    | Except.ok (s, r) => Except.ok (c :: s, r)
    | Except.error e => Except.error e

/-- Identifier-continuation chars of `tokenize` (ASCII alphanumeric or
underscore). -/
def isIdentChar (c : Char) : Bool :=
  c.isAlphanum || c = '_'

/-- Embeds `tokenize`.  The index loop over `Vec<char>` becomes recursion on
the char list with a fuel argument making it structural; each iteration
consumes at least one char, so the caller's fuel `chars.length` is ample. -/
def tokenize : Nat → List Char → Except String (List Token)
  | _, [] => Except.ok []
  | 0, _ => Except.error "invalid expression: tokenizer fuel exhausted"
  | fuel + 1, c :: rest =>
    if c.isWhitespace then tokenize fuel rest
    else if c = '&' then
      match rest with
      | '&' :: rest2 =>
        match tokenize fuel rest2 with
        | Except.ok ts => Except.ok (Token.and :: ts)
        | Except.error e => Except.error e
      | _ => Except.error "invalid expression: single &"
    else if c = '|' then
      match rest with
      | '|' :: rest2 =>
        match tokenize fuel rest2 with
        | Except.ok ts => Except.ok (Token.or :: ts)
        | Except.error e => Except.error e
      | _ => Except.error "invalid expression: single |"
    else if c = '=' then
      match rest with
      | '=' :: rest2 =>
        match tokenize fuel rest2 with
        | Except.ok ts => Except.ok (Token.eq :: ts)
        | Except.error e => Except.error e
      | _ => Except.error "invalid expression: single ="
    else if c = '!' then
      match rest with
      | '=' :: rest2 =>
        match tokenize fuel rest2 with
        | Except.ok ts => Except.ok (Token.ne :: ts)
        | Except.error e => Except.error e
      | _ =>
        match tokenize fuel rest with
        | Except.ok ts => Except.ok (Token.not :: ts)
        | Except.error e => Except.error e
    else if c = '(' then
      match tokenize fuel rest with
      | Except.ok ts => Except.ok (Token.lparen :: ts)
      | Except.error e => Except.error e
    else if c = ')' then
      match tokenize fuel rest with
      | Except.ok ts => Except.ok (Token.rparen :: ts)
      | Except.error e => Except.error e
    else if c = '"' then
      match scanString rest with
      | Except.ok (s, rest2) =>
        match tokenize fuel rest2 with
        | Except.ok ts => Except.ok (Token.str (String.mk s) :: ts)
        | Except.error e => Except.error e
      | Except.error e => Except.error e
    else if c.isDigit then
      match tokenize fuel (rest.dropWhile Char.isDigit) with
      | Except.ok ts => Except.ok (Token.num (String.mk (c :: rest.takeWhile Char.isDigit)) :: ts)
      | Except.error e => Except.error e
    else if c.isAlpha || c = '_' then
      match tokenize fuel (rest.dropWhile isIdentChar) with
      | Except.ok ts => Except.ok (Token.ident (String.mk (c :: rest.takeWhile isIdentChar)) :: ts)
      | Except.error e => Except.error e
    else Except.error ("invalid expression: unexpected char " ++ String.mk [c])

/-- Embeds `Parser::parse_value` (no recursion; the `&mut self.pos` cursor
becomes returning the remaining token list). -/
def parse_value (defs : Defs) : List Token → Except String (String × List Token)
  | Token.ident name :: rest => Except.ok (defs.get_value name, rest)
  | Token.str s :: rest => Except.ok (s, rest)
  | Token.num n :: rest => Except.ok (n, rest)
  | [] => Except.error "invalid expression: unexpected end"
  | _ :: _ => Except.error "invalid expression: expected value"

mutual

/-- Embeds `Parser::parse_or`; fuel makes the mutual recursion structural
(`eval_expr` supplies ample fuel). -/
def parse_or (defs : Defs) : Nat → List Token → Except String (Bool × List Token)
  | 0, _ => Except.error "invalid expression: parser fuel exhausted"
  | fuel + 1, ts =>
    match parse_and defs fuel ts with
    | Except.ok (left, ts2) => parse_or_rest defs fuel left ts2
    | Except.error e => Except.error e

/-- Embeds the `while match_token(Or)` loop of `parse_or`. -/
def parse_or_rest (defs : Defs) : Nat → Bool → List Token → Except String (Bool × List Token)
  | 0, _, _ => Except.error "invalid expression: parser fuel exhausted"
  | fuel + 1, left, Token.or :: ts =>
    match parse_and defs fuel ts with
    | Except.ok (right, ts2) => parse_or_rest defs fuel (left || right) ts2
    | Except.error e => Except.error e
  | _ + 1, left, ts => Except.ok (left, ts)

/-- Embeds `Parser::parse_and`. -/
def parse_and (defs : Defs) : Nat → List Token → Except String (Bool × List Token)
  | 0, _ => Except.error "invalid expression: parser fuel exhausted"
  | fuel + 1, ts =>
    match parse_not defs fuel ts with
    | Except.ok (left, ts2) => parse_and_rest defs fuel left ts2
    | Except.error e => Except.error e

/-- Embeds the `while match_token(And)` loop of `parse_and`. -/
def parse_and_rest (defs : Defs) : Nat → Bool → List Token → Except String (Bool × List Token)
  | 0, _, _ => Except.error "invalid expression: parser fuel exhausted"
  | fuel + 1, left, Token.and :: ts =>
    match parse_not defs fuel ts with
    | Except.ok (right, ts2) => parse_and_rest defs fuel (left && right) ts2
    | Except.error e => Except.error e
  | _ + 1, left, ts => Except.ok (left, ts)

/-- Embeds `Parser::parse_not`. -/
def parse_not (defs : Defs) : Nat → List Token → Except String (Bool × List Token)
  | 0, _ => Except.error "invalid expression: parser fuel exhausted"
  | fuel + 1, Token.not :: ts =>
    match parse_not defs fuel ts with
    | Except.ok (v, ts2) => Except.ok (!v, ts2)
    | Except.error e => Except.error e
  | fuel + 1, ts => parse_cmp defs fuel ts

/-- Embeds `Parser::parse_cmp` (the source message for a missing closing
parenthesis quotes the character in apostrophes, elided here). -/
def parse_cmp (defs : Defs) : Nat → List Token → Except String (Bool × List Token)
  | 0, _ => Except.error "invalid expression: parser fuel exhausted"
  | fuel + 1, Token.lparen :: ts =>
    match parse_or defs fuel ts with
    | Except.ok (v, Token.rparen :: ts2) => Except.ok (v, ts2)
    | Except.ok (_, _) => Except.error "invalid expression: missing closing paren"
    | Except.error e => Except.error e
  | _ + 1, ts =>
    match parse_value defs ts with
    | Except.ok (left, Token.eq :: ts2) =>
      match parse_value defs ts2 with
      | Except.ok (right, ts3) => Except.ok (left == right, ts3)
      | Except.error e => Except.error e
    | Except.ok (left, Token.ne :: ts2) =>
      match parse_value defs ts2 with
      | Except.ok (right, ts3) => Except.ok (!(left == right), ts3)
      | Except.error e => Except.error e
    | Except.ok (left, ts2) => Except.ok (truthy left, ts2)
    | Except.error e => Except.error e

end

/-- Embeds `eval_expr`: tokenize, parse a full `or`-expression, reject
trailing tokens.  The parser fuel `4 * n + 4` covers the deepest possible
call chain (each consumed token costs at most four nested calls). -/
def eval_expr (expr : String) (defs : Defs) : Except String Bool :=
  match tokenize expr.data.length expr.data with
  | Except.error e => Except.error e
  | Except.ok tokens =>
    match parse_or defs (4 * tokens.length + 4) tokens with
    | Except.error e => Except.error e
    | Except.ok (value, rest) =>
      if rest.isEmpty then Except.ok value
      else Except.error ("invalid expression: unexpected token at position "
        ++ toString (tokens.length - rest.length))

/-- Embeds `struct CondFrame`. -/
structure CondFrame where
  parent_active : Bool
  active : Bool
  else_seen : Bool
deriving Repr, DecidableEq

/-- Result of processing one whole file: the output buffer after the call
(the Rust `&mut String` out-parameter) and the `Result<(), String>`. -/
abbrev RunRes : Type := String × Except String Unit

/-- Result of processing one line: the output buffer and either an error or
the updated conditional stack and emitting flag. -/
abbrev LineRes : Type := String × Except String (List CondFrame × Bool)

/-- Directive recognition outcome for one raw line, embedding the
`strip_prefix('#')` / `trim_start` / `starts_with` chain at the top of the
`process_file` loop, in source order (`include`, `ifdef`, `ifndef`, `if`,
`else`, `endif`; anything else is content).  Payloads are what the source
computes from `trimmed`: the full trimmed text for `include` (consumed by
`parse_include_path`), the trimmed text after the keyword for the `if`
family. -/
inductive LineKind where
  | includeD (t : String)
  | ifdefD (name : String)
  | ifndefD (name : String)
  | ifD (expr : String)
  | elseD
  | endifD
  | contentD
deriving Repr, DecidableEq

/-- Embeds the keyword chain of `process_file` applied to the
whitespace-trimmed text after the leading `#`, in source order. -/
def classifyTrimmed (t : List Char) : LineKind :=
  if ("include".data).isPrefixOf t then LineKind.includeD (String.mk t)
  else if ("ifdef".data).isPrefixOf t then LineKind.ifdefD (String.mk (trimBoth (t.drop 5)))
  else if ("ifndef".data).isPrefixOf t then LineKind.ifndefD (String.mk (trimBoth (t.drop 6)))
  else if ("if".data).isPrefixOf t then LineKind.ifD (String.mk (trimBoth (t.drop 2)))
  else if ("else".data).isPrefixOf t then LineKind.elseD
  else if ("endif".data).isPrefixOf t then LineKind.endifD
  else LineKind.contentD

/-- Embeds the directive-recognition chain of `process_file`:
`strip_prefix('#')` then `trim_start` then the keyword chain. -/
def classify (line : String) : LineKind :=
  match line.data with
  | '#' :: rest => classifyTrimmed (rest.dropWhile Char.isWhitespace)
  | _ => LineKind.contentD

/-- Embeds one iteration of the `process_file` line loop.  `rec` is the
recursive `process_file` call available to `#include` (passed as a parameter
so that per-line theorems hold for every recursion behaviour); the `let _ =`
of the source is the explicit discard of `(rec ...).2`. -/
def processLine (rec : String → String → RunRes) (defs : Defs) (base : String)
    (line : String) (stack : List CondFrame) (active : Bool) (out : String) : LineRes :=
  match classify line with
  | LineKind.includeD t =>
    if active then
      match parse_include_path t defs with
      | some p => ((rec (pathJoin base p) out).1, Except.ok (stack, active))
      | none => (out, Except.ok (stack, active))
    else (out, Except.ok (stack, active))
  | LineKind.ifdefD name =>
    (out, Except.ok (⟨active, defs.is_defined name, false⟩ :: stack,
      active && defs.is_defined name))
  | LineKind.ifndefD name =>
    (out, Except.ok (⟨active, !(defs.is_defined name), false⟩ :: stack,
      active && !(defs.is_defined name)))
  | LineKind.ifD expr =>
    match eval_expr expr defs with
    | Except.ok cond => (out, Except.ok (⟨active, cond, false⟩ :: stack, active && cond))
    | Except.error e => (out, Except.error e)
  | LineKind.elseD =>
    match stack with
    | [] => (out, Except.error "invalid directive structure: #else without matching #if/#ifdef/#ifndef")
    | top :: rest =>
      if top.else_seen then (out, Except.ok (top :: rest, active))
      else (out, Except.ok (⟨top.parent_active, !top.active, true⟩ :: rest,
        top.parent_active && !top.active))
  | LineKind.endifD =>
    match stack with
    | [] => (out, Except.error "invalid directive structure: #endif without matching #if/#ifdef/#ifndef")
    | top :: rest => (out, Except.ok (rest, top.parent_active))
  | LineKind.contentD =>
    if active then (out ++ replace_dollar_vars line defs ++ "\n", Except.ok (stack, active))
    else (out, Except.ok (stack, active))

/-- Embeds the line loop of `process_file`, including the end-of-file check
for an unterminated conditional. -/
def processLines (rec : String → String → RunRes) (defs : Defs) (base : String) :
    List String → List CondFrame → Bool → String → RunRes
  | [], stack, _, out =>
    if stack.isEmpty then (out, Except.ok ())
    else (out, Except.error "invalid directive structure: missing #endif")
  | line :: rest, stack, active, out =>
    match processLine rec defs base line stack active out with
    | (out2, Except.ok (stack2, active2)) => processLines rec defs base rest stack2 active2 out2
    | (out2, Except.error e) => (out2, Except.error e)

/-- Embeds `process_file`.  An unreadable file (`fs path = none`) succeeds
with no contribution.  `fuel` bounds include-recursion depth (the Rust code
has no such bound and would exhaust the call stack on an include cycle). -/
def process_file (fs : FS) (defs : Defs) : Nat → String → String → RunRes
  | fuel, path, out =>
    match fs path with
    | none => (out, Except.ok ())
    | some content =>
      match fuel with
      | 0 => (out, Except.error "include recursion limit exceeded")
      | fuel2 + 1 =>
        processLines (process_file fs defs fuel2) defs (parentDir path)
          (linesOf content) [] true out

/-- Length bookkeeping for `findClose`: a successful split accounts for the
whole input (prefix, the two delimiters, suffix). -/
theorem findClose_length (delim : Char) :
    ∀ (l pre post : List Char), findClose delim l = some (pre, post) →
      l.length = pre.length + 2 + post.length := by
  intro l
  induction l with
  | nil => intro pre post h; simp [findClose] at h
  | cons c1 tail ih =>
    intro pre post h
    cases tail with
    | nil => simp [findClose] at h
    | cons c2 rest =>
      rw [findClose] at h
      by_cases hd : (c1 = delim && c2 = delim) = true
      · rw [if_pos hd] at h
        simp only [Option.some.injEq, Prod.mk.injEq] at h
        obtain ⟨h1, h2⟩ := h
        subst h1
        subst h2
        simp
        omega
      · rw [if_neg hd] at h
        cases hfc : findClose delim (c2 :: rest) with
        | none => rw [hfc] at h; cases h
        | some pr =>
          obtain ⟨pre2, post2⟩ := pr
          rw [hfc] at h
          simp only [Option.some.injEq, Prod.mk.injEq] at h
          obtain ⟨h1, h2⟩ := h
          subst h1
          subst h2
          have hlen := ih pre2 post2 hfc
          simp at hlen ⊢
          omega

/-- Scanner following the specification text for the two substitution
mini-languages, differing from the sharable code core only in the
no-closing-delimiter case, where the spec says the remaining text is copied
through unchanged from the opening delimiter on. -/
def specScan (delim : Char) (substF : String → String) (l : List Char) : List Char :=
  match l with
  | c1 :: c2 :: rest =>
    if c1 = delim && c2 = delim then
      match hfc : findClose delim rest with
      | some (name, after) => (substF (String.mk name)).data ++ specScan delim substF after
      | none => c1 :: c2 :: rest
    else c1 :: specScan delim substF (c2 :: rest)
  | l2 => l2
termination_by l.length
decreasing_by
  · have := findClose_length delim rest _ _ hfc
    simp at this ⊢
    omega
  · simp

/-- Unfolding lemma for `specScan`: opening pair with a closing pair. -/
theorem specScan_pair_some (delim : Char) (substF : String → String)
    (c1 c2 : Char) (rest name after : List Char)
    (hd : (c1 = delim && c2 = delim) = true)
    (hfc : findClose delim rest = some (name, after)) :
    specScan delim substF (c1 :: c2 :: rest)
      = (substF (String.mk name)).data ++ specScan delim substF after := by
  rw [specScan]
  rw [if_pos hd]
  split
  · rename_i name2 after2 heq
    rw [hfc] at heq
    simp only [Option.some.injEq, Prod.mk.injEq] at heq
    rw [heq.1, heq.2]
  · rename_i heq
    rw [hfc] at heq
    cases heq

/-- Unfolding lemma for `specScan`: opening pair with no closing pair. -/
theorem specScan_pair_none (delim : Char) (substF : String → String)
    (c1 c2 : Char) (rest : List Char)
    (hd : (c1 = delim && c2 = delim) = true)
    (hfc : findClose delim rest = none) :
    specScan delim substF (c1 :: c2 :: rest) = c1 :: c2 :: rest := by
  rw [specScan]
  rw [if_pos hd]
  split
  · rename_i name2 after2 heq
    rw [hfc] at heq
    cases heq
  · rfl

/-- Unfolding lemma for `specScan`: no opening pair at the head. -/
theorem specScan_nopair (delim : Char) (substF : String → String)
    (c1 c2 : Char) (rest : List Char)
    (hd : ¬((c1 = delim && c2 = delim) = true)) :
    specScan delim substF (c1 :: c2 :: rest) = c1 :: specScan delim substF (c2 :: rest) := by
  rw [specScan]
  rw [if_neg hd]

/-- When a list contains no adjacent delimiter pair, the code scanner copies
it unchanged (with any fuel at least its length). -/
theorem scanCore_of_findClose_none (delim : Char) (substF : String → String) :
    ∀ (fuel : Nat) (l : List Char), l.length ≤ fuel →
      findClose delim l = none → scanCore delim substF fuel l = l := by
  intro fuel
  induction fuel with
  | zero => intro l hl _; simp [scanCore]
  | succ fuel ih =>
    intro l hl hfc
    match l with
    | [] => rfl
    | [c] => rfl
    | c1 :: c2 :: rest =>
      rw [findClose] at hfc
      by_cases hd : (c1 = delim && c2 = delim) = true
      · rw [if_pos hd] at hfc
        cases hfc
      · rw [if_neg hd] at hfc
        have hfc2 : findClose delim (c2 :: rest) = none := by
          cases h2 : findClose delim (c2 :: rest) with
          | none => rfl
          | some pr => obtain ⟨a, b⟩ := pr; rw [h2] at hfc; cases hfc
        rw [scanCore, if_neg hd]
        have hlen : (c2 :: rest).length ≤ fuel := by simp at hl ⊢; omega
        rw [ih (c2 :: rest) hlen hfc2]

/-- When no closing pair follows an opening delimiter pair, the code scanner
copies the rest through unchanged, one char at a time. -/
theorem scanCore_head_delim_of_none (delim : Char) (substF : String → String) :
    ∀ (fuel : Nat) (rest : List Char), rest.length + 1 ≤ fuel →
      findClose delim rest = none →
      scanCore delim substF fuel (delim :: rest) = delim :: rest := by
  intro fuel
  induction fuel with
  | zero => intro rest hl _; omega
  | succ fuel ih =>
    intro rest hl hfc
    match rest with
    | [] => rfl
    | r :: rs =>
      have hfcr : findClose delim rs = none := by
        cases rs with
        | nil => rfl
        | cons x xs =>
          rw [findClose] at hfc
          by_cases hd : (r = delim && x = delim) = true
          · rw [if_pos hd] at hfc; cases hfc
          · rw [if_neg hd] at hfc
            cases h2 : findClose delim (x :: xs) with
            | none => rfl
            | some pr => obtain ⟨a, b⟩ := pr; rw [h2] at hfc; cases hfc
      rw [scanCore]
      by_cases hr : r = delim
      · have hcond : (decide (delim = delim) && decide (r = delim)) = true := by simp [hr]
        rw [if_pos hcond, hfcr]
        show delim :: scanCore delim substF fuel (r :: rs) = delim :: r :: rs
        rw [hr]
        rw [ih rs (by simp at hl ⊢; omega) hfcr]
      · have hcond : ¬((decide (delim = delim) && decide (r = delim)) = true) := by simp [hr]
        rw [if_neg hcond]
        have hlen : (r :: rs).length ≤ fuel := by simp at hl ⊢; omega
        rw [scanCore_of_findClose_none delim substF fuel (r :: rs) hlen hfc]

/-- Unfolding lemma for `specScan`: lists shorter than two chars are kept. -/
theorem specScan_short (delim : Char) (substF : String → String) :
    specScan delim substF [] = [] ∧ ∀ c, specScan delim substF [c] = [c] := by
  constructor
  · rw [specScan]
    intro c1 c2 rest h
    cases h
  · intro c
    rw [specScan]
    intro c1 c2 rest h
    cases h

/-- The fueled code scanner agrees with the specification scanner whenever
the fuel covers the input length (as it does at both call sites). -/
theorem scanCore_eq_specScan (delim : Char) (substF : String → String) :
    ∀ (fuel : Nat) (l : List Char), l.length ≤ fuel →
      scanCore delim substF fuel l = specScan delim substF l := by
  intro fuel
  induction fuel with
  | zero =>
    intro l hl
    have hnil : l = [] := by cases l with | nil => rfl | cons c cs => simp at hl
    subst hnil
    rw [(specScan_short delim substF).1]
    rfl
  | succ fuel ih =>
    intro l hl
    match l with
    | [] =>
      rw [(specScan_short delim substF).1]
      rfl
    | [c] =>
      rw [(specScan_short delim substF).2 c]
      rfl
    | c1 :: c2 :: rest =>
      rw [scanCore]
      by_cases hd : (c1 = delim && c2 = delim) = true
      · rw [if_pos hd]
        cases hfc : findClose delim rest with
        | some pr =>
          obtain ⟨name, after⟩ := pr
          simp only [hfc]
          rw [specScan_pair_some delim substF c1 c2 rest name after hd hfc]
          have hlen := findClose_length delim rest name after hfc
          have hle : after.length ≤ fuel := by simp at hl; omega
          rw [ih after hle]
        | none =>
          simp only [hfc]
          rw [specScan_pair_none delim substF c1 c2 rest hd hfc]
          have hc2 : c2 = delim := by
            simp only [Bool.and_eq_true, decide_eq_true_eq] at hd
            exact hd.2
          rw [hc2]
          have hle : rest.length + 1 ≤ fuel := by simp at hl; omega
          rw [scanCore_head_delim_of_none delim substF fuel rest hle hfc]
      · rw [if_neg hd]
        rw [specScan_nopair delim substF c1 c2 rest hd]
        have hle : (c2 :: rest).length ≤ fuel := by simp at hl ⊢; omega
        rw [ih (c2 :: rest) hle]

/-- Pointwise behaviour of `set_defined key (some v)` on `is_defined`. -/
theorem is_defined_set_some (d : Defs) (key v n : String) :
    (d.set_defined key (some v)).is_defined n = if n = key then true else d.is_defined n := by
  simp only [Defs.set_defined, Defs.is_defined]
  split <;> rfl

/-- Pointwise behaviour of `set_defined key (some v)` on `values`. -/
theorem values_set_some (d : Defs) (key v n : String) :
    (d.set_defined key (some v)).values n = if n = key then some v else d.values n := rfl

/-- Pointwise behaviour of `set_defined key None` on `is_defined`. -/
theorem is_defined_set_none (d : Defs) (key n : String) :
    (d.set_defined key none).is_defined n = if n = key then false else d.is_defined n := by
  simp only [Defs.set_defined, Defs.is_defined]
  split <;> rfl

/-- Pointwise behaviour of `set_defined key None` on `values`. -/
theorem values_set_none (d : Defs) (key n : String) :
    (d.set_defined key none).values n = if n = key then none else d.values n := rfl

/-- A definition store reached by applying a sequence of `set_defined`
operations to `Defs::new` (the only way the program builds one: `main`
folds the `-D` arguments this way). -/
def applyOps (ops : List (String × Option String)) : Defs :=
  ops.foldl (fun d kv => d.set_defined kv.1 kv.2) Defs.new

/-- Every reachable store keeps a stored value for every defined name
(`set_defined` inserts into both maps together). -/
theorem applyOps_stored :
    ∀ (ops : List (String × Option String)) (d : Defs),
      (∀ name, d.is_defined name = true → (d.values name).isSome = true) →
      ∀ name,
        (ops.foldl (fun d kv => d.set_defined kv.1 kv.2) d).is_defined name = true →
        ((ops.foldl (fun d kv => d.set_defined kv.1 kv.2) d).values name).isSome = true := by
  intro ops
  induction ops with
  | nil => intro d h name; exact h name
  | cons kv rest ih =>
    intro d h name
    simp only [List.foldl_cons]
    apply ih (d.set_defined kv.1 kv.2)
    intro n hn
    obtain ⟨k, v⟩ := kv
    cases v with
    | some w =>
      rw [is_defined_set_some] at hn
      rw [values_set_some]
      by_cases hk : n = k
      · simp [hk]
      · rw [if_neg hk] at hn
        rw [if_neg hk]
        exact h n hn
    | none =>
      rw [is_defined_set_none] at hn
      rw [values_set_none]
      by_cases hk : n = k
      · rw [if_pos hk] at hn; cases hn
      · rw [if_neg hk] at hn
        rw [if_neg hk]
        exact h n hn

/-- C3: content-level substitution scans left to right; a `$$name$$` span
with a syntactically valid identifier is replaced by `get_value(name)`
(which is the empty string for unset or explicitly undefined names); a span
whose enclosed text is not a valid identifier is deleted entirely,
delimiters included; an opening doubled dollar with no closing doubled
dollar leaves the remaining text unchanged; text outside spans is copied
unchanged.  Formalised as: `replace_dollar_vars` equals the scanner that
follows the specification text, with the substitution rule literally
`if is_ident name then get_value name else ""`; the parenthetical about
undefined names is the second conjunct. -/
theorem c3_content_substitution (input : String) (defs : Defs) :
    replace_dollar_vars input defs
      = String.mk (specScan '$' (dollarSubst defs) input.data)
    ∧ (∀ name, defs.is_defined name = false → defs.get_value name = "") := by
  constructor
  · unfold replace_dollar_vars
    rw [scanCore_eq_specScan _ _ input.data.length input.data (le_refl _)]
  · intro name h
    simp [Defs.get_value, h]

/-- Witness for C3 at a concrete input: the unset name `NOPE` resolves to
the empty string and the substitution matches the specification scanner. -/
theorem c3_content_substitution_witness :
    replace_dollar_vars "a $$NOPE$$ b" Defs.new
      = String.mk (specScan '$' (dollarSubst Defs.new) "a $$NOPE$$ b".data)
    ∧ Defs.new.get_value "NOPE" = "" :=
  ⟨(c3_content_substitution "a $$NOPE$$ b" Defs.new).1,
   (c3_content_substitution "a $$NOPE$$ b" Defs.new).2 "NOPE" (by decide)⟩

/-- C4: `is_defined` and `get_value` are consistent: `get_value` returns the
stored value (with `"TRUE"` as the fallback for a defined name without a
stored value) exactly when `is_defined` is true, and the empty string
whenever `is_defined` is false; moreover on every store the program can
build (a fold of `set_defined` operations over `Defs::new`) a defined name
always has a stored value and `get_value` returns exactly it. -/
theorem c4_store_consistency :
    (∀ (d : Defs) (name : String),
        (d.is_defined name = true → d.get_value name = (d.values name).getD "TRUE")
      ∧ (d.is_defined name = false → d.get_value name = ""))
  ∧ (∀ (ops : List (String × Option String)) (name : String),
        (applyOps ops).is_defined name = true →
        ∃ v, (applyOps ops).values name = some v ∧ (applyOps ops).get_value name = v) := by
  constructor
  · intro d name
    constructor
    · intro h
      simp [Defs.get_value, h]
    · intro h
      simp [Defs.get_value, h]
  · intro ops name h
    have hsome : ((applyOps ops).values name).isSome = true :=
      applyOps_stored ops Defs.new
        (by intro n hn; simp [Defs.new, Defs.is_defined] at hn) name h
    cases hv : (applyOps ops).values name with
    | none => rw [hv] at hsome; cases hsome
    | some v =>
      refine ⟨v, rfl, ?_⟩
      simp [Defs.get_value, h, hv]

/-- Witness for C4: after defining `KEY=x`, the name is defined, stores
`"x"`, and `get_value` returns it; an untouched name resolves to `""`. -/
theorem c4_store_consistency_witness :
    (applyOps [("KEY", some "x")]).is_defined "KEY" = true
    ∧ (∃ v, (applyOps [("KEY", some "x")]).values "KEY" = some v
        ∧ (applyOps [("KEY", some "x")]).get_value "KEY" = v)
    ∧ (applyOps [("KEY", some "x")]).get_value "OTHER" = ""
    ∧ (applyOps [("KEY", some "x")]).get_value "KEY"
      = ((applyOps [("KEY", some "x")]).values "KEY").getD "TRUE" :=
  ⟨by decide,
   c4_store_consistency.2 [("KEY", some "x")] "KEY" (by decide),
   (c4_store_consistency.1 (applyOps [("KEY", some "x")]) "OTHER").2 (by decide),
   (c4_store_consistency.1 (applyOps [("KEY", some "x")]) "KEY").1 (by decide)⟩

/-- C7: defining a name and then explicitly undefining it (`set` with no
value) leaves the name not defined with the empty resolved value, for every
starting store, name, and non-empty prior value. -/
theorem c7_explicit_undefine (d : Defs) (name v : String) (hv : v ≠ "") :
    ((d.set_defined name (some v)).set_defined name none).is_defined name = false
    ∧ ((d.set_defined name (some v)).set_defined name none).get_value name = "" := by
  have hdef : ((d.set_defined name (some v)).set_defined name none).is_defined name = false := by
    rw [is_defined_set_none]
    simp
  exact ⟨hdef, by simp [Defs.get_value, hdef]⟩

/-- Witness for C7: `KEY=x` followed by `KEY=` (explicit empty) on the fresh
store leaves `KEY` undefined with empty value. -/
theorem c7_explicit_undefine_witness :
    ("x" ≠ "")
    ∧ ((Defs.new.set_defined "KEY" (some "x")).set_defined "KEY" none).is_defined "KEY" = false
    ∧ ((Defs.new.set_defined "KEY" (some "x")).set_defined "KEY" none).get_value "KEY" = "" :=
  ⟨by decide, c7_explicit_undefine Defs.new "KEY" "x" (by decide)⟩

/-- C8: a file whose content cannot be read (root input or include target)
makes `process_file` succeed with no contribution to the output buffer, at
every recursion depth. -/
theorem c8_unreadable_file_ok (fs : FS) (defs : Defs) (fuel : Nat) (path out : String)
    (h : fs path = none) :
    process_file fs defs fuel path out = (out, Except.ok ()) := by
  rw [process_file, h]

/-- Witness for C8: a completely absent root input yields empty output
successfully. -/
theorem c8_unreadable_file_ok_witness :
    process_file (fun _ => none) Defs.new 3 "input.md" "" = ("", Except.ok ()) :=
  c8_unreadable_file_ok (fun _ => none) Defs.new 3 "input.md" "" rfl

/-- The emitting flag determined by a conditional stack: `true` for the
empty stack, `parent_active && own_condition` of the innermost frame
otherwise. -/
def emitOf : List CondFrame → Bool
  | [] => true
  | f :: _ => f.parent_active && f.active

/-- Well-formedness of a conditional stack: every frame recorded, as its
`parent_active`, the emitting flag of the stack below it. -/
def StackInv : List CondFrame → Prop
  | [] => True
  | f :: rest => f.parent_active = emitOf rest ∧ StackInv rest

/-- Unfolding of `processLine` on an `include` line. -/
theorem processLine_eq_includeD (rec : String → String → RunRes) (defs : Defs)
    (base line : String) (stack : List CondFrame) (active : Bool) (out : String)
    (t : String) (hcl : classify line = LineKind.includeD t) :
    processLine rec defs base line stack active out =
      if active then
        match parse_include_path t defs with
        | some p => ((rec (pathJoin base p) out).1, Except.ok (stack, active))
        | none => (out, Except.ok (stack, active))
      else (out, Except.ok (stack, active)) := by
  unfold processLine
  rw [hcl]

/-- Unfolding of `processLine` on an `ifdef` line. -/
theorem processLine_eq_ifdefD (rec : String → String → RunRes) (defs : Defs)
    (base line : String) (stack : List CondFrame) (active : Bool) (out : String)
    (name : String) (hcl : classify line = LineKind.ifdefD name) :
    processLine rec defs base line stack active out =
      (out, Except.ok (⟨active, defs.is_defined name, false⟩ :: stack,
        active && defs.is_defined name)) := by
  unfold processLine
  rw [hcl]

/-- Unfolding of `processLine` on an `ifndef` line. -/
theorem processLine_eq_ifndefD (rec : String → String → RunRes) (defs : Defs)
    (base line : String) (stack : List CondFrame) (active : Bool) (out : String)
    (name : String) (hcl : classify line = LineKind.ifndefD name) :
    processLine rec defs base line stack active out =
      (out, Except.ok (⟨active, !(defs.is_defined name), false⟩ :: stack,
        active && !(defs.is_defined name))) := by
  unfold processLine
  rw [hcl]

/-- Unfolding of `processLine` on an `if` line. -/
theorem processLine_eq_ifD (rec : String → String → RunRes) (defs : Defs)
    (base line : String) (stack : List CondFrame) (active : Bool) (out : String)
    (expr : String) (hcl : classify line = LineKind.ifD expr) :
    processLine rec defs base line stack active out =
      match eval_expr expr defs with
      | Except.ok cond =>
        (out, Except.ok (⟨active, cond, false⟩ :: stack, active && cond))
      | Except.error e => (out, Except.error e) := by
  unfold processLine
  rw [hcl]

/-- Unfolding of `processLine` on an `else` line with no open frame. -/
theorem processLine_eq_elseD_nil (rec : String → String → RunRes) (defs : Defs)
    (base line : String) (active : Bool) (out : String)
    (hcl : classify line = LineKind.elseD) :
    processLine rec defs base line [] active out =
      (out, Except.error "invalid directive structure: #else without matching #if/#ifdef/#ifndef") := by
  unfold processLine
  rw [hcl]

/-- Unfolding of `processLine` on an `else` line with an open frame. -/
theorem processLine_eq_elseD_cons (rec : String → String → RunRes) (defs : Defs)
    (base line : String) (top : CondFrame) (rest : List CondFrame)
    (active : Bool) (out : String)
    (hcl : classify line = LineKind.elseD) :
    processLine rec defs base line (top :: rest) active out =
      if top.else_seen then (out, Except.ok (top :: rest, active))
      else (out, Except.ok (⟨top.parent_active, !top.active, true⟩ :: rest,
        top.parent_active && !top.active)) := by
  unfold processLine
  rw [hcl]

/-- Unfolding of `processLine` on an `endif` line with no open frame. -/
theorem processLine_eq_endifD_nil (rec : String → String → RunRes) (defs : Defs)
    (base line : String) (active : Bool) (out : String)
    (hcl : classify line = LineKind.endifD) :
    processLine rec defs base line [] active out =
      (out, Except.error "invalid directive structure: #endif without matching #if/#ifdef/#ifndef") := by
  unfold processLine
  rw [hcl]

/-- Unfolding of `processLine` on an `endif` line with an open frame. -/
theorem processLine_eq_endifD_cons (rec : String → String → RunRes) (defs : Defs)
    (base line : String) (top : CondFrame) (rest : List CondFrame)
    (active : Bool) (out : String)
    (hcl : classify line = LineKind.endifD) :
    processLine rec defs base line (top :: rest) active out =
      (out, Except.ok (rest, top.parent_active)) := by
  unfold processLine
  rw [hcl]

/-- Unfolding of `processLine` on a content line. -/
theorem processLine_eq_contentD (rec : String → String → RunRes) (defs : Defs)
    (base line : String) (stack : List CondFrame) (active : Bool) (out : String)
    (hcl : classify line = LineKind.contentD) :
    processLine rec defs base line stack active out =
      if active then (out ++ replace_dollar_vars line defs ++ "\n", Except.ok (stack, active))
      else (out, Except.ok (stack, active)) := by
  unfold processLine
  rw [hcl]

/-- Every successful `processLine` outcome changes the stack in one of four
ways: unchanged (include/content/second else), push of a fresh frame
(`ifdef`/`ifndef`/`if`), first-`else` toggle of the top frame, or pop
(`endif`) restoring the popped frame's `parent_active`. -/
theorem processLine_ok_shape (rec : String → String → RunRes) (defs : Defs)
    (base line : String) (stack : List CondFrame) (active : Bool) (out : String)
    (out2 : String) (stack2 : List CondFrame) (active2 : Bool)
    (h : processLine rec defs base line stack active out = (out2, Except.ok (stack2, active2))) :
    (stack2 = stack ∧ active2 = active)
    ∨ (∃ cond, stack2 = ⟨active, cond, false⟩ :: stack ∧ active2 = (active && cond))
    ∨ (∃ top rest, stack = top :: rest
        ∧ stack2 = ⟨top.parent_active, !top.active, true⟩ :: rest
        ∧ active2 = (top.parent_active && !top.active))
    ∨ (∃ top rest, stack = top :: rest ∧ stack2 = rest ∧ active2 = top.parent_active) := by
  cases hcl : classify line
  case includeD t =>
    rw [processLine_eq_includeD rec defs base line stack active out t hcl] at h
    by_cases ha : active = true
    · rw [if_pos ha] at h
      cases hp : parse_include_path t defs with
      | some p =>
        rw [hp] at h
        simp only [Prod.mk.injEq, Except.ok.injEq] at h
        exact Or.inl ⟨h.2.1.symm, h.2.2.symm⟩
      | none =>
        rw [hp] at h
        simp only [Prod.mk.injEq, Except.ok.injEq] at h
        exact Or.inl ⟨h.2.1.symm, h.2.2.symm⟩
    · rw [if_neg ha] at h
      simp only [Prod.mk.injEq, Except.ok.injEq] at h
      exact Or.inl ⟨h.2.1.symm, h.2.2.symm⟩
  case ifdefD name =>
    rw [processLine_eq_ifdefD rec defs base line stack active out name hcl] at h
    simp only [Prod.mk.injEq, Except.ok.injEq] at h
    exact Or.inr (Or.inl ⟨defs.is_defined name, h.2.1.symm, h.2.2.symm⟩)
  case ifndefD name =>
    rw [processLine_eq_ifndefD rec defs base line stack active out name hcl] at h
    simp only [Prod.mk.injEq, Except.ok.injEq] at h
    exact Or.inr (Or.inl ⟨!(defs.is_defined name), h.2.1.symm, h.2.2.symm⟩)
  case ifD expr =>
    rw [processLine_eq_ifD rec defs base line stack active out expr hcl] at h
    cases he : eval_expr expr defs with
    | ok cond =>
      rw [he] at h
      simp only [Prod.mk.injEq, Except.ok.injEq] at h
      exact Or.inr (Or.inl ⟨cond, h.2.1.symm, h.2.2.symm⟩)
    | error e =>
      rw [he] at h
      simp at h
  case elseD =>
    cases stack with
    | nil =>
      rw [processLine_eq_elseD_nil rec defs base line active out hcl] at h
      simp at h
    | cons top rest =>
      rw [processLine_eq_elseD_cons rec defs base line top rest active out hcl] at h
      by_cases hes : top.else_seen = true
      · rw [if_pos hes] at h
        simp only [Prod.mk.injEq, Except.ok.injEq] at h
        exact Or.inl ⟨h.2.1.symm, h.2.2.symm⟩
      · rw [if_neg hes] at h
        simp only [Prod.mk.injEq, Except.ok.injEq] at h
        exact Or.inr (Or.inr (Or.inl ⟨top, rest, rfl, h.2.1.symm, h.2.2.symm⟩))
  case endifD =>
    cases stack with
    | nil =>
      rw [processLine_eq_endifD_nil rec defs base line active out hcl] at h
      simp at h
    | cons top rest =>
      rw [processLine_eq_endifD_cons rec defs base line top rest active out hcl] at h
      simp only [Prod.mk.injEq, Except.ok.injEq] at h
      exact Or.inr (Or.inr (Or.inr ⟨top, rest, rfl, h.2.1.symm, h.2.2.symm⟩))
  case contentD =>
    rw [processLine_eq_contentD rec defs base line stack active out hcl] at h
    by_cases ha : active = true
    · rw [if_pos ha] at h
      simp only [Prod.mk.injEq, Except.ok.injEq] at h
      exact Or.inl ⟨h.2.1.symm, h.2.2.symm⟩
    · rw [if_neg ha] at h
      simp only [Prod.mk.injEq, Except.ok.injEq] at h
      exact Or.inl ⟨h.2.1.symm, h.2.2.symm⟩

/-- C2: within one `process_file` call, after every handled directive the
file-local emitting flag equals `true` when the conditional stack is empty
and `parent_active && own_condition` of the innermost frame otherwise
(first conjunct: every successful line step preserves this invariant
together with the per-frame bookkeeping `StackInv`); the first `#else` in a
frame flips `own_condition`, marks it consumed, and recomputes the flag as
`parent_active && !own_condition`; a second `#else` in the same frame is a
no-op with no error; `#endif` pops the frame and restores the flag to the
popped frame's `parent_active`. -/
theorem c2_conditional_stack (rec : String → String → RunRes) (defs : Defs)
    (base line : String) (stack : List CondFrame) (active : Bool) (out : String)
    (hact : active = emitOf stack) (hinv : StackInv stack) :
    (∀ (out2 : String) (stack2 : List CondFrame) (active2 : Bool),
        processLine rec defs base line stack active out = (out2, Except.ok (stack2, active2)) →
        active2 = emitOf stack2 ∧ StackInv stack2)
    ∧ (classify line = LineKind.elseD →
        ∀ top rest, stack = top :: rest →
          (top.else_seen = false →
            processLine rec defs base line stack active out
              = (out, Except.ok (⟨top.parent_active, !top.active, true⟩ :: rest,
                  top.parent_active && !top.active)))
          ∧ (top.else_seen = true →
            processLine rec defs base line stack active out = (out, Except.ok (stack, active))))
    ∧ (classify line = LineKind.endifD →
        ∀ top rest, stack = top :: rest →
          processLine rec defs base line stack active out
            = (out, Except.ok (rest, top.parent_active))) := by
  refine ⟨?_, ?_, ?_⟩
  · intro out2 stack2 active2 h
    rcases processLine_ok_shape rec defs base line stack active out out2 stack2 active2 h with
      hsame | ⟨cond, hst, hac⟩ | ⟨top, rest, hstk, hst, hac⟩ | ⟨top, rest, hstk, hst, hac⟩
    · rw [hsame.1, hsame.2]
      exact ⟨hact, hinv⟩
    · subst hst
      subst hac
      exact ⟨by rw [hact]; rfl, by rw [StackInv]; exact ⟨hact, hinv⟩⟩
    · subst hstk
      subst hst
      subst hac
      rw [StackInv] at hinv
      exact ⟨rfl, by rw [StackInv]; exact ⟨hinv.1, hinv.2⟩⟩
    · subst hstk
      subst hst
      subst hac
      rw [StackInv] at hinv
      exact ⟨hinv.1, hinv.2⟩
  · intro hcl top rest hstk
    subst hstk
    constructor
    · intro hes
      rw [processLine_eq_elseD_cons rec defs base line top rest active out hcl]
      rw [hes]
      rfl
    · intro hes
      rw [processLine_eq_elseD_cons rec defs base line top rest active out hcl]
      rw [hes]
      rfl
  · intro hcl top rest hstk
    subst hstk
    exact processLine_eq_endifD_cons rec defs base line top rest active out hcl

/-- Witness for C2: an `#ifdef` of an undefined name pushes a frame and the
invariant holds for the resulting state; a first `#else` on a single-frame
stack with a true condition flips the frame and turns emission off; a
second `#else` is a no-op; `#endif` pops and restores the parent flag. -/
theorem c2_conditional_stack_witness :
    (false = emitOf [⟨true, false, false⟩] ∧ StackInv [⟨true, false, false⟩])
    ∧ processLine (fun _ o => (o, Except.ok ())) Defs.new "" "#else"
        [⟨true, true, false⟩] true ""
      = ("", Except.ok ([⟨true, false, true⟩], false))
    ∧ processLine (fun _ o => (o, Except.ok ())) Defs.new "" "#else"
        [⟨true, false, true⟩] false ""
      = ("", Except.ok ([⟨true, false, true⟩], false))
    ∧ processLine (fun _ o => (o, Except.ok ())) Defs.new "" "#endif"
        [⟨true, false, true⟩] false ""
      = ("", Except.ok ([], true)) := by
  refine ⟨?_, ?_, ?_, ?_⟩
  · have h := c2_conditional_stack (fun _ o => (o, Except.ok ())) Defs.new "" "#ifdef X"
      [] true "" rfl trivial
    exact h.1 "" [⟨true, false, false⟩] false (by rfl)
  · have h := c2_conditional_stack (fun _ o => (o, Except.ok ())) Defs.new "" "#else"
      [⟨true, true, false⟩] true "" rfl ⟨rfl, trivial⟩
    exact (h.2.1 (by decide) ⟨true, true, false⟩ [] rfl).1 rfl
  · have h := c2_conditional_stack (fun _ o => (o, Except.ok ())) Defs.new "" "#else"
      [⟨true, false, true⟩] false "" rfl ⟨rfl, trivial⟩
    exact (h.2.1 (by decide) ⟨true, false, true⟩ [] rfl).2 rfl
  · have h := c2_conditional_stack (fun _ o => (o, Except.ok ())) Defs.new "" "#endif"
      [⟨true, false, true⟩] false "" rfl ⟨rfl, trivial⟩
    exact h.2.2 (by decide) ⟨true, false, true⟩ [] rfl

/-- A line whose first character is not `#` is classified as content. -/
theorem classify_not_hash (line : String) (h : line.data.head? ≠ some '#') :
    classify line = LineKind.contentD := by
  unfold classify
  cases hd : line.data with
  | nil => rfl
  | cons c cs =>
    rw [hd] at h
    split
    · rename_i rest heq
      rw [heq] at h
      simp at h
    · rfl

/-- A `#` line whose trimmed tail starts with none of the six keywords is
classified as content. -/
theorem classify_hash_no_keyword (line : String) (r : List Char)
    (hd : line.data = '#' :: r)
    (h1 : ("include".data).isPrefixOf (r.dropWhile Char.isWhitespace) = false)
    (h2 : ("ifdef".data).isPrefixOf (r.dropWhile Char.isWhitespace) = false)
    (h3 : ("ifndef".data).isPrefixOf (r.dropWhile Char.isWhitespace) = false)
    (h4 : ("if".data).isPrefixOf (r.dropWhile Char.isWhitespace) = false)
    (h5 : ("else".data).isPrefixOf (r.dropWhile Char.isWhitespace) = false)
    (h6 : ("endif".data).isPrefixOf (r.dropWhile Char.isWhitespace) = false) :
    classify line = LineKind.contentD := by
  unfold classify
  rw [hd]
  show classifyTrimmed (r.dropWhile Char.isWhitespace) = LineKind.contentD
  unfold classifyTrimmed
  rw [h1, h2, h3, h4, h5, h6]
  rfl

/-- C9: a line is a directive candidate only when its very first character
is `#` (no leading whitespace tolerated), and a `#`-prefixed line whose text
after the `#`, with leading whitespace trimmed, begins with none of
`include`, `ifdef`, `ifndef`, `if`, `else`, `endif` is handled as an
ordinary content line: when emitting it is appended with content-level
substitution applied to the whole line, leading `#` intact; the stack and
flag are unchanged. -/
theorem c9_directive_recognition (rec : String → String → RunRes) (defs : Defs)
    (base line : String) (stack : List CondFrame) (active : Bool) (out : String) :
    (line.data.head? ≠ some '#' →
      processLine rec defs base line stack active out
        = if active then (out ++ replace_dollar_vars line defs ++ "\n", Except.ok (stack, active))
          else (out, Except.ok (stack, active)))
    ∧ (∀ r : List Char, line.data = '#' :: r →
        ("include".data).isPrefixOf (r.dropWhile Char.isWhitespace) = false →
        ("ifdef".data).isPrefixOf (r.dropWhile Char.isWhitespace) = false →
        ("ifndef".data).isPrefixOf (r.dropWhile Char.isWhitespace) = false →
        ("if".data).isPrefixOf (r.dropWhile Char.isWhitespace) = false →
        ("else".data).isPrefixOf (r.dropWhile Char.isWhitespace) = false →
        ("endif".data).isPrefixOf (r.dropWhile Char.isWhitespace) = false →
        processLine rec defs base line stack active out
          = if active then (out ++ replace_dollar_vars line defs ++ "\n", Except.ok (stack, active))
            else (out, Except.ok (stack, active))) := by
  constructor
  · intro h
    exact processLine_eq_contentD rec defs base line stack active out (classify_not_hash line h)
  · intro r hd h1 h2 h3 h4 h5 h6
    exact processLine_eq_contentD rec defs base line stack active out
      (classify_hash_no_keyword line r hd h1 h2 h3 h4 h5 h6)

/-- Witness for C9: the unknown directive-like line is preserved as content
with substitution applied and the leading hash intact, and a leading-space
line is never a directive. -/
theorem c9_directive_recognition_witness :
    processLine (fun _ o => (o, Except.ok ())) (applyOps [("VAL", some "7")]) ""
        "#notadirective $$VAL$$" [] true ""
      = ("#notadirective 7\n", Except.ok ([], true))
    ∧ processLine (fun _ o => (o, Except.ok ())) Defs.new ""
        " #include \x22no.txt\x22" [] true ""
      = (" #include \x22no.txt\x22\n", Except.ok ([], true)) := by
  constructor
  · have h := (c9_directive_recognition (fun _ o => (o, Except.ok ()))
      (applyOps [("VAL", some "7")]) "" "#notadirective $$VAL$$" [] true "").2
      "notadirective $$VAL$$".data (by rfl) (by decide) (by decide) (by decide)
      (by decide) (by decide) (by decide)
    rw [h]
    rfl
  · have h := (c9_directive_recognition (fun _ o => (o, Except.ok ()))
      Defs.new "" " #include \x22no.txt\x22" [] true "").1 (by decide)
    rw [h]
    rfl

/-- C10: an `#if` expression is tokenized and evaluated no matter what the
emitting flag is, so a malformed expression inside an inactive branch still
aborts the file with the invalid-expression error (first conjunct holds for
every `active`, in particular `false`); `#include` is the directive guarded
by the emitting flag: while not emitting it does nothing, for every possible
include recursion behaviour `rec` (second conjunct); conditional directives
are likewise not guarded: `#ifdef` pushes its frame for every value of the
flag (third conjunct). -/
theorem c10_inactive_if_still_evaluated (rec : String → String → RunRes) (defs : Defs)
    (base line : String) (stack : List CondFrame) (active : Bool) (out : String) :
    (∀ expr msg, classify line = LineKind.ifD expr →
        eval_expr expr defs = Except.error msg →
        processLine rec defs base line stack active out = (out, Except.error msg))
    ∧ (∀ t, classify line = LineKind.includeD t → active = false →
        processLine rec defs base line stack active out = (out, Except.ok (stack, active)))
    ∧ (∀ name, classify line = LineKind.ifdefD name →
        processLine rec defs base line stack active out
          = (out, Except.ok (⟨active, defs.is_defined name, false⟩ :: stack,
              active && defs.is_defined name))) := by
  refine ⟨?_, ?_, ?_⟩
  · intro expr msg hcl he
    rw [processLine_eq_ifD rec defs base line stack active out expr hcl, he]
  · intro t hcl ha
    rw [processLine_eq_includeD rec defs base line stack active out t hcl, ha]
    rfl
  · intro name hcl
    exact processLine_eq_ifdefD rec defs base line stack active out name hcl

/-- Witness for C10: with the scope not emitting, the malformed `#if (`
still fails with an expression error, while an `#include` line is skipped. -/
theorem c10_inactive_if_still_evaluated_witness :
    processLine (fun _ o => (o, Except.ok ())) Defs.new "" "#if (" [] false ""
      = ("", Except.error "invalid expression: unexpected end")
    ∧ processLine (fun p o => (o ++ p, Except.ok ())) Defs.new "" "#include \x22x.txt\x22"
        [] false "" = ("", Except.ok ([], false))
    ∧ processLine (fun _ o => (o, Except.ok ())) Defs.new "" "#ifdef X" [] false ""
      = ("", Except.ok ([⟨false, false, false⟩], false)) :=
  ⟨(c10_inactive_if_still_evaluated (fun _ o => (o, Except.ok ())) Defs.new ""
      "#if (" [] false "").1 "(" "invalid expression: unexpected end" (by rfl) (by rfl),
   (c10_inactive_if_still_evaluated (fun p o => (o ++ p, Except.ok ())) Defs.new ""
      "#include \x22x.txt\x22" [] false "").2.1 "include \x22x.txt\x22" (by rfl) rfl,
   (c10_inactive_if_still_evaluated (fun _ o => (o, Except.ok ())) Defs.new ""
      "#ifdef X" [] false "").2.2 "X" (by rfl)⟩

/-- File system for the C1 counterexample: the root includes `inc.txt`,
whose sole line is a stray `#endif` (an invalid-directive-structure error). -/
def fsC1 : FS := fun p =>
  if p = "in.md" then some "a\n#include \x22inc.txt\x22\nb\n"
  else if p = "inc.txt" then some "#endif\n"
  else none

/-- Counterexample to C1 as stated: processing the included file `inc.txt`
fails with an invalid-directive-structure error, yet processing the root
`in.md` — which includes it between two content lines — succeeds, emitting
both content lines: the error did not propagate through the enclosing
`process_file` call and the run was not aborted (the `let _ =` at the
include site discards the recursive result). -/
theorem c1_propagation_counterexample :
    process_file fsC1 Defs.new 1 "inc.txt" ""
      = ("", Except.error "invalid directive structure: #endif without matching #if/#ifdef/#ifndef")
    ∧ process_file fsC1 Defs.new 2 "in.md" "" = ("a\nb\n", Except.ok ()) :=
  ⟨rfl, rfl⟩

/-- C1 amended: an invalid-expression or invalid-directive-structure error
aborts the processing of the file in which it occurs (second conjunct: a
line-level error stops the line loop and is returned, so an error in the
root file aborts the run), but an error arising inside an `#include`d file
does not propagate: the including call discards the recursive result, keeps
whatever output the included file appended before failing, and continues
successfully (first conjunct). -/
theorem c1_propagation_amended (rec : String → String → RunRes) (defs : Defs)
    (base : String) (stack : List CondFrame) (active : Bool) (out : String) :
    (∀ line t p e, classify line = LineKind.includeD t → active = true →
        parse_include_path t defs = some p →
        (rec (pathJoin base p) out).2 = Except.error e →
        processLine rec defs base line stack active out
          = ((rec (pathJoin base p) out).1, Except.ok (stack, active)))
    ∧ (∀ line rest2 out2 e2,
        processLine rec defs base line stack active out = (out2, Except.error e2) →
        processLines rec defs base (line :: rest2) stack active out = (out2, Except.error e2)) := by
  constructor
  · intro line t p e hcl ha hp _
    rw [processLine_eq_includeD rec defs base line stack active out t hcl, ha, hp]
    rfl
  · intro line rest2 out2 e2 h
    unfold processLines
    rw [h]

/-- Witness for C1 amended: an include whose recursive processing errors
after appending partial output still yields a successful step that keeps
that partial output, and an erroring line aborts its own file's line loop. -/
theorem c1_propagation_amended_witness :
    processLine (fun _ o => (o ++ "partial", Except.error "boom")) Defs.new "dir"
        "#include x.txt" [] true "" = ("partial", Except.ok ([], true))
    ∧ processLines (fun _ o => (o, Except.ok ())) Defs.new "" ["#endif", "zz"] [] true ""
      = ("", Except.error "invalid directive structure: #endif without matching #if/#ifdef/#ifndef") := by
  constructor
  · have h := (c1_propagation_amended (fun _ o => (o ++ "partial", Except.error "boom"))
      Defs.new "dir" [] true "").1 "#include x.txt" "include x.txt" "x.txt" "boom"
      (by rfl) rfl (by rfl) (by rfl)
    rw [h]
    rfl
  · exact (c1_propagation_amended (fun _ o => (o, Except.ok ())) Defs.new "" [] true "").2
      "#endif" ["zz"] ""
      "invalid directive structure: #endif without matching #if/#ifdef/#ifndef" (by rfl)

/-- Value tokens of the expression grammar (`IDENT | STRING | NUMBER`). -/
def IsValueTok : Token → Prop := fun tk =>
  (∃ n, tk = Token.ident n) ∨ (∃ s, tk = Token.str s) ∨ (∃ n, tk = Token.num n)

/-- The resolved string of a value token, as computed by `parse_value`: an
identifier resolves through `get_value`, string and number literals are
their literal text (junk default for operator tokens, unused). -/
def resolveTok (defs : Defs) : Token → String
  | Token.ident n => defs.get_value n
  | Token.str s => s
  | Token.num n => n
  | _ => ""

/-- C5: a bare value atom (identifier, string or number not followed by `==`
or `!=`) evaluates to the truthiness of its resolved string — the empty
string is false (conjunct 1), a string whose ASCII uppercasing is `"0"`,
`"F"`, `"FALSE"` or `"NO"` (case-insensitive equality) is false
(conjunct 2), anything else is true (conjunct 3) — and `==` / `!=` compare
the two resolved strings for exact string equality, with no type coercion
(conjuncts 5 and 6). -/
theorem c5_truthiness_and_comparison (defs : Defs) :
    (truthy "" = false)
    ∧ (∀ s : String, toUpperAscii s = "0" ∨ toUpperAscii s = "F"
        ∨ toUpperAscii s = "FALSE" ∨ toUpperAscii s = "NO" → truthy s = false)
    ∧ (∀ s : String, s ≠ "" → toUpperAscii s ≠ "0" → toUpperAscii s ≠ "F" →
        toUpperAscii s ≠ "FALSE" → toUpperAscii s ≠ "NO" → truthy s = true)
    ∧ (∀ (fuel : Nat) (v : Token) (rest : List Token), IsValueTok v →
        rest.head? ≠ some Token.eq → rest.head? ≠ some Token.ne →
        parse_cmp defs (fuel + 1) (v :: rest)
          = Except.ok (truthy (resolveTok defs v), rest))
    ∧ (∀ (fuel : Nat) (v1 v2 : Token) (rest : List Token), IsValueTok v1 → IsValueTok v2 →
        parse_cmp defs (fuel + 1) (v1 :: Token.eq :: v2 :: rest)
          = Except.ok (resolveTok defs v1 == resolveTok defs v2, rest))
    ∧ (∀ (fuel : Nat) (v1 v2 : Token) (rest : List Token), IsValueTok v1 → IsValueTok v2 →
        parse_cmp defs (fuel + 1) (v1 :: Token.ne :: v2 :: rest)
          = Except.ok (!(resolveTok defs v1 == resolveTok defs v2), rest)) := by
  refine ⟨rfl, ?_, ?_, ?_, ?_, ?_⟩
  · intro s h
    by_cases hs : s = ""
    · subst hs
      have h0 : toUpperAscii "" = "" := rfl
      rw [h0] at h
      rcases h with h | h | h | h <;> exact absurd h (by decide)
    · simp only [truthy]
      rw [if_neg hs]
      rcases h with h | h | h | h <;> rw [h] <;> decide
  · intro s hs h0 hf hfalse hno
    simp only [truthy]
    rw [if_neg hs]
    simp only [Bool.not_eq_true']
    simp [h0, hf, hfalse, hno]
  · intro fuel v rest hv hne1 hne2
    rcases hv with ⟨n, rfl⟩ | ⟨s, rfl⟩ | ⟨n, rfl⟩ <;>
      cases rest with
      | nil => rfl
      | cons r rs =>
        cases r
        case eq => exact absurd rfl hne1
        case ne => exact absurd rfl hne2
        all_goals rfl
  · intro fuel v1 v2 rest hv1 hv2
    rcases hv1 with ⟨n, rfl⟩ | ⟨s, rfl⟩ | ⟨n, rfl⟩ <;>
      rcases hv2 with ⟨n2, rfl⟩ | ⟨s2, rfl⟩ | ⟨n2, rfl⟩ <;> rfl
  · intro fuel v1 v2 rest hv1 hv2
    rcases hv1 with ⟨n, rfl⟩ | ⟨s, rfl⟩ | ⟨n, rfl⟩ <;>
      rcases hv2 with ⟨n2, rfl⟩ | ⟨s2, rfl⟩ | ⟨n2, rfl⟩ <;> rfl

/-- Witness for C5: truthiness at empty, falsy and truthy strings, a bare
identifier evaluated by `parse_cmp`, and concrete `==` / `!=` comparisons. -/
theorem c5_truthiness_and_comparison_witness :
    truthy "" = false
    ∧ truthy "FaLsE" = false
    ∧ truthy "1" = true
    ∧ parse_cmp Defs.new 1 [Token.ident "X"] = Except.ok (false, [])
    ∧ parse_cmp Defs.new 1 [Token.num "3", Token.eq, Token.str "3"] = Except.ok (true, [])
    ∧ parse_cmp Defs.new 1 [Token.num "3", Token.ne, Token.str "3"] = Except.ok (false, []) :=
  ⟨(c5_truthiness_and_comparison Defs.new).1,
   (c5_truthiness_and_comparison Defs.new).2.1 "FaLsE" (Or.inr (Or.inr (Or.inl rfl))),
   (c5_truthiness_and_comparison Defs.new).2.2.1 "1" (by decide) (by decide) (by decide)
     (by decide) (by decide),
   (c5_truthiness_and_comparison Defs.new).2.2.2.1 0 (Token.ident "X") []
     (Or.inl ⟨"X", rfl⟩) (by decide) (by decide),
   (c5_truthiness_and_comparison Defs.new).2.2.2.2.1 0 (Token.num "3") (Token.str "3") []
     (Or.inr (Or.inr ⟨"3", rfl⟩)) (Or.inr (Or.inl ⟨"3", rfl⟩)),
   (c5_truthiness_and_comparison Defs.new).2.2.2.2.2 0 (Token.num "3") (Token.str "3") []
     (Or.inr (Or.inr ⟨"3", rfl⟩)) (Or.inr (Or.inl ⟨"3", rfl⟩))⟩

/-- Include-path computation following the specification text: the remainder
after the `include` keyword is trimmed, every double-quote character
anywhere in it is stripped, the `##name##` substitution pass is applied
(substituting only names that are valid identifiers and `is_defined`,
deleting every other span), and an empty result means no include. -/
def specIncludePath (t : String) (defs : Defs) : Option String :=
  let after := trimBoth (t.data.drop 7)
  let cleaned := after.filter (fun c => c != '"')
  let replaced := String.mk (specScan '#' (hashSubst defs) cleaned)
  if replaced = "" then none else some replaced

/-- The embedded `replace_hash_vars` agrees with the specification scanner
for the hash form. -/
theorem replace_hash_vars_eq_spec (l : List Char) (defs : Defs) :
    replace_hash_vars (String.mk l) defs
      = String.mk (specScan '#' (hashSubst defs) l) := by
  unfold replace_hash_vars
  rw [scanCore_eq_specScan '#' (hashSubst defs)
    (String.mk l).data.length (String.mk l).data (le_refl _)]

/-- The embedded `parse_include_path` agrees with the specification-side
include-path computation (the code's early return for an empty trimmed
remainder coincides with the spec's final empty check, since quote
stripping and substitution of an empty string are empty). -/
theorem parse_include_path_eq_spec (t : String) (defs : Defs) :
    parse_include_path t defs = specIncludePath t defs := by
  simp only [parse_include_path, specIncludePath]
  by_cases he : (trimBoth (t.data.drop 7)).isEmpty = true
  · rw [if_pos he]
    have hnil : trimBoth (t.data.drop 7) = [] := by
      cases hx : trimBoth (t.data.drop 7) with
      | nil => rfl
      | cons a b => rw [hx] at he; simp at he
    rw [hnil]
    have hs := (specScan_short '#' (hashSubst defs)).1
    simp [hs]
  · rw [if_neg he]
    rw [replace_hash_vars_eq_spec ((trimBoth (t.data.drop 7)).filter (fun c => c != '"')) defs]

/-- C6: for an `#include` processed while emitting, the remainder after the
keyword is trimmed, every double quote anywhere in it is stripped, each
`##name##` span is substituted only when the enclosed text is a valid
identifier with `is_defined` true and deleted otherwise, and an empty
result skips the include (conjunct 1, via the specification-side
computation, plus conjunct 3 for the skip); otherwise the include target is
`pathJoin base p` where `base` is the directory of the file currently being
processed — `process_file` passes `parentDir path` as the base (conjuncts
2 and 4). -/
theorem c6_include_path_handling :
    (∀ (t : String) (defs : Defs), parse_include_path t defs = specIncludePath t defs)
    ∧ (∀ (rec : String → String → RunRes) (defs : Defs) (base line t p : String)
          (stack : List CondFrame) (active : Bool) (out : String),
        classify line = LineKind.includeD t → active = true →
        parse_include_path t defs = some p →
        processLine rec defs base line stack active out
          = ((rec (pathJoin base p) out).1, Except.ok (stack, active)))
    ∧ (∀ (rec : String → String → RunRes) (defs : Defs) (base line t : String)
          (stack : List CondFrame) (active : Bool) (out : String),
        classify line = LineKind.includeD t → active = true →
        parse_include_path t defs = none →
        processLine rec defs base line stack active out = (out, Except.ok (stack, active)))
    ∧ (∀ (fs : FS) (defs : Defs) (fuel : Nat) (path content out : String),
        fs path = some content →
        process_file fs defs (fuel + 1) path out
          = processLines (process_file fs defs fuel) defs (parentDir path)
              (linesOf content) [] true out) := by
  refine ⟨parse_include_path_eq_spec, ?_, ?_, ?_⟩
  · intro rec defs base line t p stack active out hcl ha hp
    rw [processLine_eq_includeD rec defs base line stack active out t hcl, ha, hp]
    rfl
  · intro rec defs base line t stack active out hcl ha hp
    rw [processLine_eq_includeD rec defs base line stack active out t hcl, ha, hp]
    rfl
  · intro fs defs fuel path content out h
    rw [process_file, h]

/-- Witness for C6: a concrete include with quotes and a `##SUF##` span,
`SUF=x` defined, resolves to `inc/part_x.txt`, matches the specification
computation, and recurses on the path joined onto the current directory. -/
theorem c6_include_path_handling_witness :
    parse_include_path "include \x22inc/part_##SUF##.txt\x22" (applyOps [("SUF", some "x")])
      = specIncludePath "include \x22inc/part_##SUF##.txt\x22" (applyOps [("SUF", some "x")])
    ∧ parse_include_path "include \x22inc/part_##SUF##.txt\x22" (applyOps [("SUF", some "x")])
      = some "inc/part_x.txt"
    ∧ processLine (fun p o => (o ++ p, Except.ok ())) (applyOps [("SUF", some "x")]) "dir"
        "#include \x22inc/part_##SUF##.txt\x22" [] true ""
      = ("dir/inc/part_x.txt", Except.ok ([], true))
    ∧ parse_include_path "include \x22##UNDEF##\x22" Defs.new = none
    ∧ processLine (fun p o => (o ++ p, Except.ok ())) Defs.new "dir"
        "#include \x22##UNDEF##\x22" [] true "" = ("", Except.ok ([], true))
    ∧ process_file (fun _ => some "hi") Defs.new 1 "dir/in.md" ""
      = processLines (process_file (fun _ => some "hi") Defs.new 0) Defs.new
          (parentDir "dir/in.md") (linesOf "hi") [] true "" := by
  refine ⟨c6_include_path_handling.1 "include \x22inc/part_##SUF##.txt\x22"
    (applyOps [("SUF", some "x")]), by rfl, ?_, by rfl, ?_,
    c6_include_path_handling.2.2.2 (fun _ => some "hi") Defs.new 0 "dir/in.md" "hi" "" rfl⟩
  · have h := c6_include_path_handling.2.1 (fun p o => (o ++ p, Except.ok ()))
      (applyOps [("SUF", some "x")]) "dir" "#include \x22inc/part_##SUF##.txt\x22"
      "include \x22inc/part_##SUF##.txt\x22" "inc/part_x.txt" [] true ""
      (by rfl) rfl (by rfl)
    rw [h]
    rfl
  · exact c6_include_path_handling.2.2.1 (fun p o => (o ++ p, Except.ok ()))
      Defs.new "dir" "#include \x22##UNDEF##\x22" "include \x22##UNDEF##\x22"
      [] true "" (by rfl) rfl (by rfl)
